import Mathlib

/-!
Verification development for the `searchagent` repository.

The Go sources are shallowly embedded as follows.

* Go strings are modelled as Lean `String`s (sequences of Unicode scalar
  values); `len`, slicing and indexing are modelled on those sequences.
* `golang.org/x/net/html` parse trees are modelled by the inductive `Node`
  mirroring the pointer shape of `html.Node`: every node carries its type,
  `Data`, attribute list, a `firstChild` pointer and a `nextSibling`
  pointer, with `Node.nil` playing the role of the nil pointer.  The Go
  loops `for c := n.FirstChild; c != nil; c = c.NextSibling` become
  structural recursion along the `firstChild`/`nextSibling` chain.
* Network effects are abstracted by passing the fetched data in: the
  results-page fetch becomes an `Except String Node` argument (error =
  request construction / transport / non-2xx / read failure, value = the
  parsed body), the per-result content fetch becomes an oracle
  `String → Option String` (none = any failure of `extractContentFromURL`),
  and the two SearXNG endpoint attempts become a
  `List (Option SearXNGResponse)` (none = any failure before or during
  JSON decoding, some = the decoded envelope; decoding is modelled as
  atomic).
* Go's `make([]T, 0, limit)` panics on a negative capacity; the `GoOutcome`
  type and the `Int`-limit entry points model this.
-/

/-- Go `unicode.IsSpace`: the Unicode White_Space runes. -/
def isSpaceGo (c : Char) : Bool :=
  (9 ≤ c.toNat && c.toNat ≤ 13) || c.toNat = 32 || c.toNat = 0x85 || c.toNat = 0xA0 ||
  c.toNat = 0x1680 || (0x2000 ≤ c.toNat && c.toNat ≤ 0x200A) ||
  c.toNat = 0x2028 || c.toNat = 0x2029 || c.toNat = 0x202F || c.toNat = 0x205F ||
  c.toNat = 0x3000

/-- Drop leading and trailing white space from a character list. -/
def trimChars (l : List Char) : List Char :=
  ((l.dropWhile isSpaceGo).reverse.dropWhile isSpaceGo).reverse

/-- Go `strings.TrimSpace`. -/
def trimGo (s : String) : String :=
  String.mk (trimChars s.data)

/-- Split a character list at every character satisfying `p`, keeping empty
pieces; `splitByPred (· == ' ')` is Go `strings.Split(s, " ")` and feeding the
result through a non-empty filter gives Go `strings.Fields`. -/
def splitByPred (p : Char → Bool) : List Char → List (List Char)
  | [] => [[]]
  | c :: cs =>
    let r := splitByPred p cs
    if p c then [] :: r
    else
      match r with
      | [] => [[c]]
      | w :: ws => (c :: w) :: ws

/-- Go `strings.Fields`: the maximal runs of non-white-space characters. -/
def fieldsChars (l : List Char) : List (List Char) :=
  (splitByPred isSpaceGo l).filter (fun w => !w.isEmpty)

/-- Go `strings.Join(words, " ")` at the character-list level. -/
def joinWords : List (List Char) → List Char
  | [] => []
  | [w] => w
  | w :: ws => w ++ ' ' :: joinWords ws

/-- The whitespace clean-up of `extractTextFromHTML`:
`strings.Join(strings.Fields(text), " ")`. -/
def collapseWS (s : String) : String :=
  String.mk (joinWords (fieldsChars s.data))

/-- The node types of `golang.org/x/net/html`. -/
inductive NType where
  | errorNode
  | textNode
  | documentNode
  | elementNode
  | commentNode
  | doctypeNode
deriving DecidableEq, Repr

/-- An `html.Node`, with the nil pointer made explicit: `data` is the tag
name of an element or the text of a text node, `attrs` the `Key`/`Val`
attribute list, and `firstChild`/`nextSibling` the child and sibling
pointers. -/
inductive Node where
  | nil
  | node (ntype : NType) (data : String) (attrs : List (String × String))
      (firstChild : Node) (nextSibling : Node)
deriving DecidableEq, Repr

/-- The result record produced for each search hit (`SearchResult`). -/
structure SearchResult where
  url : String
  title : String
  content : String
deriving DecidableEq, Repr

instance : Inhabited SearchResult := ⟨⟨"", "", ""⟩⟩

/-- hasClass: the node has a `class` attribute whose space-separated token
list contains `cls` after trimming each token. -/
def hasClass : Node → String → Bool
  | .nil, _ => false
  | .node _ _ attrs _ _, cls =>
    attrs.any fun p =>
      p.1 == "class" &&
      (splitByPred (fun c => c == ' ') p.2.data).any fun w => String.mk (trimChars w) == cls

/-- The first `href` attribute value of a node, if any (the `break` in the
attribute loop of `extractResultFromNode`). -/
def firstHref : Node → Option String
  | .nil => none
  | .node _ _ attrs _ _ => (attrs.find? fun p => p.1 == "href").map (·.2)

/-- Concatenated text of a sibling chain and all subtrees below it (the
recursive worker of `getTextContent`). -/
def textRun : Node → String
  | .nil => ""
  | .node t d _ fc ns => (if t = NType.textNode then d else "") ++ textRun fc ++ textRun ns

/-- Concatenated text of one node and its subtree (its siblings excluded). -/
def textOf : Node → String
  | .nil => ""
  | .node t d _ fc _ => (if t = NType.textNode then d else "") ++ textRun fc

/-- getTextContent: all text below the node, concatenated in document order
and trimmed at the ends. -/
def getTextContent (n : Node) : String := trimGo (textOf n)

/-- The per-node body of the `find` closure in `extractResultFromNode`:
inspect an element for the `result__a`, `result__snippet` and `result__url`
anchors and update the partial result accordingly. -/
def stepFind (n : Node) (r : SearchResult) : SearchResult :=
  match n with
  | .nil => r
  | .node t d _ _ _ =>
    if t = NType.elementNode then
      let r1 :=
        if d = "a" ∧ hasClass n "result__a" = true then
          { url := (firstHref n).getD r.url, title := getTextContent n, content := r.content }
        else r
      let r2 :=
        if d = "a" ∧ hasClass n "result__snippet" = true then
          { r1 with content := getTextContent n }
        else r1
      if d = "a" ∧ hasClass n "result__url" = true ∧ r2.url = "" then
        { r2 with url := getTextContent n }
      else r2
    else r

/-- Run the `find` closure over a sibling chain (each node, then its
subtree, then its next sibling). -/
def findRun : Node → SearchResult → SearchResult
  | .nil, r => r
  | .node t d a fc ns, r => findRun ns (findRun fc (stepFind (.node t d a fc ns) r))

/-- Run the `find` closure on one node and its subtree, as `find(n)` is
called on the result container itself. -/
def findTop : Node → SearchResult → SearchResult
  | .nil, r => r
  | .node t d a fc ns, r => findRun fc (stepFind (.node t d a fc ns) r)

/-- The per-node body of the `extractDesc` closure: a text node whose
trimmed data is strictly longer than the current content replaces it. -/
def stepDesc (t : NType) (d : String) (cur : String) : String :=
  if t = NType.textNode ∧ cur.length < (trimGo d).length then trimGo d else cur

/-- Run the `extractDesc` closure over a sibling chain; children of a node
whose `Data` is `"a"` are not visited. -/
def descRun : Node → String → String
  | .nil, cur => cur
  | .node t d _ fc ns, cur =>
    let cur1 := stepDesc t d cur
    let cur2 := if d ≠ "a" then descRun fc cur1 else cur1
    descRun ns cur2

/-- Run the `extractDesc` closure on one node and its subtree, as
`extractDesc(n)` is called on the result container itself. -/
def descTop : Node → String → String
  | .nil, cur => cur
  | .node t d _ fc _, cur =>
    let cur1 := stepDesc t d cur
    if d ≠ "a" then descRun fc cur1 else cur1

/-- The content chosen by `extractResultFromNode` before the final clean-up:
the snippet found by `find`, or, when that is empty, the longest trimmed
text node seen by `extractDesc`. -/
def rawSnippet (n : Node) : String :=
  let r := findTop n ⟨"", "", ""⟩
  if r.content = "" then descTop n "" else r.content

/-- The final content clean-up of `extractResultFromNode`: trim, and
truncate to 300 characters plus `"..."` when longer. -/
def cleanContent (c : String) : String :=
  let t := trimGo c
  if 300 < t.length then String.mk (t.data.take 300) ++ "..." else t

/-- extractResultFromNode: run `find` for URL/title/snippet, fall back to
the longest text node for the content, then clean the content up. -/
def extractResultFromNode (n : Node) : SearchResult :=
  let r := findTop n ⟨"", "", ""⟩
  { r with content := cleanContent (rawSnippet n) }

/-- The acceptance test of the parser loop: a `div` element whose class
token list contains `result` and whose extraction has non-empty URL and
title. -/
def acceptedResult (n : Node) : Bool :=
  match n with
  | .nil => false
  | .node t d _ _ _ =>
    decide (t = NType.elementNode) && (d == "div") && hasClass n "result" &&
    !((extractResultFromNode n).url == "") && !((extractResultFromNode n).title == "")

/-- The recursive `parse` closure of `parseDuckDuckGoResults`, run over a
sibling chain: each visit is guarded by `len(results) < limit`, an accepted
container appends its extraction, and reaching `limit` right after an append
returns before the children are traversed. -/
def parseRun (limit : Nat) : Node → List SearchResult → List SearchResult
  | .nil, acc => acc
  | .node t d a fc ns, acc =>
    if acc.length < limit then
      let n := Node.node t d a fc ns
      let acc1 := if acceptedResult n then acc ++ [extractResultFromNode n] else acc
      let acc2 :=
        if acceptedResult n && decide (limit ≤ acc1.length) then acc1
        else parseRun limit fc acc1
      parseRun limit ns acc2
    else acc

/-- parseDuckDuckGoResults on an already-parsed document: the top-level
`parse(doc)` call (unguarded, siblings of the root never visited), then the
guarded traversal of the root's children. -/
def parseDuckDuckGoResults (doc : Node) (limit : Nat) : List SearchResult :=
  match doc with
  | .nil => []
  | .node t d a fc ns =>
    let n := Node.node t d a fc ns
    let acc1 := if acceptedResult n then [extractResultFromNode n] else []
    if acceptedResult n && decide (limit ≤ acc1.length) then acc1
    else parseRun limit fc acc1

/-- Document-order (pre-order) listing of all nodes of a sibling chain and
their subtrees. -/
def chainNodes : Node → List Node
  | .nil => []
  | .node t d a fc ns => Node.node t d a fc ns :: (chainNodes fc ++ chainNodes ns)

/-- Enrichment of one parsed result in `searchDuckDuckGo`: on a successful
content fetch replace the content, on any `extractContentFromURL` failure
keep the result as it is. -/
def enrich (contentOf : String → Option String) (r : SearchResult) : SearchResult :=
  match contentOf r.url with
  | none => r
  | some c => { r with content := c }

/-- searchDuckDuckGo with the network abstracted: `page` is the outcome of
fetching the results page (request/transport/status/read errors on the
left, the parsed body on the right) and `contentOf` the outcome of the
per-result content fetch. -/
def searchDuckDuckGo (page : Except String Node) (contentOf : String → Option String)
    (limit : Nat) : Except String (List SearchResult) :=
  match page with
  | .error e => .error e
  | .ok doc => .ok ((parseDuckDuckGoResults doc limit).map (enrich contentOf))

/-- WebScraper.Search: run `searchDuckDuckGo`, return the empty sequence
when it found nothing, and otherwise copy over at most `limit` results. -/
def WebScraperSearch (page : Except String Node) (contentOf : String → Option String)
    (limit : Nat) : Except String (List SearchResult) :=
  match searchDuckDuckGo page contentOf limit with
  | .error e => .error e
  | .ok srs => if srs.length = 0 then .ok [] else .ok (srs.take limit)

/-- A single decoded entry of the SearXNG JSON envelope. -/
structure SearXNGResult where
  title : String
  url : String
  content : String
  engine : String
  publishedDate : String
deriving DecidableEq, Repr

/-- The SearXNG JSON response envelope. -/
structure SearXNGResponse where
  results : List SearXNGResult
deriving DecidableEq, Repr

/-- The endpoint loop of `SearXNGAPISearcher.Search`: `apiResponse` keeps
its zero value through every failed candidate and the first successful
decode breaks the loop. -/
def firstDecoded : List (Option SearXNGResponse) → SearXNGResponse
  | [] => ⟨[]⟩
  | none :: rest => firstDecoded rest
  | some r :: _ => r

/-- An envelope entry survives projection when neither title nor URL is
empty. -/
def usableEntry (e : SearXNGResult) : Bool :=
  !(e.title == "") && !(e.url == "")

/-- Projection of an envelope entry into a `SearchResult`. -/
def projEntry (e : SearXNGResult) : SearchResult :=
  { url := e.url, title := e.title, content := e.content }

/-- The collection loop of `SearXNGAPISearcher.Search`: stop at `limit`
collected results, skip entries with empty title or URL, append the rest. -/
def collectResults (limit : Nat) : List SearXNGResult → List SearchResult → List SearchResult
  | [], acc => acc
  | e :: es, acc =>
    if limit ≤ acc.length then acc
    else if e.title = "" ∨ e.url = "" then collectResults limit es acc
    else collectResults limit es (acc ++ [projEntry e])

/-- SearXNGAPISearcher.Search with the two endpoint attempts abstracted
into `responses`: an empty decoded result list (in particular, no
successful decode at all) is the single hard failure, and otherwise the
decoded entries are projected and limited. -/
def SearXNGSearch (responses : List (Option SearXNGResponse)) (limit : Nat) :
    Except String (List SearchResult) :=
  let apiResponse := firstDecoded responses
  if apiResponse.results.length = 0 then .error "no valid JSON response from any endpoint"
  else .ok (collectResults limit apiResponse.results [])

/-- The observable outcome of constructing a searcher: which implementation
was built and with which base URL. -/
inductive SearcherInst where
  | webScraper (baseURL : String)
  | searxngAPI (baseURL : String)
deriving DecidableEq, Repr

/-- The URL-taking `NewWebScraper` constructor invoked by the factory,
recorded by its configured base URL. -/
def NewWebScraper (url : String) : SearcherInst :=
  .webScraper url

/-- Go `strings.HasSuffix`. -/
def hasSuffixGo (s post : String) : Bool :=
  post.data.isSuffixOf s.data

/-- NewSearXNGAPISearcher: normalize the base URL to end with a slash. -/
def NewSearXNGAPISearcher (baseURL : String) : SearcherInst :=
  .searxngAPI (if hasSuffixGo baseURL "/" then baseURL else baseURL ++ "/")

/-- NewSearchService, the variant at `searcher/interface.go:29-45`: returns
nil (here `none`) for an unrecognized searcher type, defaulting empty URL
overrides per kind. -/
def NewSearchServiceNil (t url : String) : Option SearcherInst :=
  if t = "SearcherTypeScraper" then
    some (NewWebScraper (if url = "" then "httpsy://html.duckduckgo.com/html/?q=" else url))
  else if t = "SearcherTypeAPI" then
    some (NewSearXNGAPISearcher (if url = "" then "https://searx.grailfinder.net/" else url))
  else none

/-- NewSearchService, the variant at `searcher/interface.go:75-91`: returns
an `unknown searcher type` error for an unrecognized searcher type,
defaulting empty URL overrides per kind. -/
def NewSearchServiceErr (t url : String) : Except String SearcherInst :=
  if t = "SearcherTypeScraper" then
    .ok (NewWebScraper (if url = "" then "https://html.duckduckgo.com/html/?q=" else url))
  else if t = "SearcherTypeAPI" then
    .ok (NewSearXNGAPISearcher (if url = "" then "https://searx.grailfinder.net/" else url))
  else .error ("unknown searcher type: " ++ t)

/-- The outcome of running a Go function that may panic. -/
inductive GoOutcome (α : Type) where
  | panics
  | ok (val : α)
  | err (msg : String)
deriving DecidableEq, Repr

/-- WebScraper.Search over a Go `int` limit: the very first statement is
`results := make([]SearchResult, 0, limit)`, which panics on a negative
capacity; with a non-negative limit the body equals `WebScraperSearch`. -/
def WebScraperSearchGo (page : Except String Node) (contentOf : String → Option String)
    (limit : Int) : GoOutcome (List SearchResult) :=
  if limit < 0 then .panics
  else
    match WebScraperSearch page contentOf limit.toNat with
    | .error e => .err e
    | .ok l => .ok l

/-- SearXNGAPISearcher.Search over a Go `int` limit: the hard-failure check
precedes `results := make([]SearchResult, 0, limit)`, so the negative-
capacity panic is reached exactly when some endpoint decoded a non-empty
envelope. -/
def SearXNGSearchGo (responses : List (Option SearXNGResponse)) (limit : Int) :
    GoOutcome (List SearchResult) :=
  let apiResponse := firstDecoded responses
  if apiResponse.results.length = 0 then .err "no valid JSON response from any endpoint"
  else if limit < 0 then .panics
  else .ok (collectResults limit.toNat apiResponse.results [])

/-- The block-level tags after which `extractTextFromHTML` appends a
space. -/
def isBlockTag (d : String) : Bool :=
  d == "p" || d == "div" || d == "h1" || d == "h2" || d == "h3" || d == "h4" ||
  d == "h5" || d == "h6" || d == "br" || d == "li" || d == "tr" || d == "td"

/-- The recursive `extractText` worker of `extractTextFromHTML`, over a
sibling chain: a text node yields its data at once; any other node yields
its children's text plus a trailing space for block-level elements. -/
def extractRun : Node → String
  | .nil => ""
  | .node t d _ fc ns =>
    (if t = NType.textNode then d
     else extractRun fc ++ (if t = NType.elementNode ∧ isBlockTag d = true then " " else "")) ++
    extractRun ns

/-- `extractText` on the root node alone (its siblings are never
visited). -/
def extractTop : Node → String
  | .nil => ""
  | .node t d _ fc _ =>
    if t = NType.textNode then d
    else extractRun fc ++ (if t = NType.elementNode ∧ isBlockTag d = true then " " else "")

/-- extractTextFromHTML on an already-parsed document: raw text extraction
followed by the `strings.Join(strings.Fields(..), " ")` clean-up. -/
def extractTextFromHTML (doc : Node) : String :=
  collapseWS (extractTop doc)

/-- The success path of `extractContentFromURL` applied to a fetched body:
extract the text and hard-truncate it to 2000 characters. -/
def extractContentFromURLBody (doc : Node) : String :=
  let content := extractTextFromHTML doc
  if 2000 < content.length then String.mk (content.data.take 2000) else content

/-- The trimmed text-node data values inspected by `extractDesc` along a
sibling chain, in visit order (children of nodes whose `Data` is `"a"`
excluded). -/
def descTexts : Node → List String
  | .nil => []
  | .node t d _ fc ns =>
    (if t = NType.textNode then [trimGo d] else []) ++
    (if d ≠ "a" then descTexts fc else []) ++ descTexts ns

/-- The trimmed text-node data values inspected by `extractDesc` on the
container itself. -/
def descTextsTop : Node → List String
  | .nil => []
  | .node t d _ fc _ =>
    (if t = NType.textNode then [trimGo d] else []) ++
    (if d ≠ "a" then descTexts fc else [])

/-- The fold step of the longest-text selection: replace the current value
only on a strictly greater length. -/
def pickLonger (cur t : String) : String :=
  if cur.length < t.length then t else cur

/-- First-longest selection: the first string of maximal length, starting
from the empty string. -/
def selectFirstLongest (ts : List String) : String :=
  ts.foldl pickLonger ""

/-- Unwrap a successful search outcome (empty list on the error side). -/
def okList : Except String (List SearchResult) → List SearchResult
  | .ok l => l
  | .error _ => []

instance {ε α : Type} [DecidableEq ε] [DecidableEq α] : DecidableEq (Except ε α) := fun a b =>
  match a, b with
  | .error e, .error f =>
    if h : e = f then .isTrue (by rw [h]) else .isFalse (fun hh => h (Except.error.inj hh))
  | .ok x, .ok y =>
    if h : x = y then .isTrue (by rw [h]) else .isFalse (fun hh => h (Except.ok.inj hh))
  | .error _, .ok _ => .isFalse (fun hh => Except.noConfusion hh)
  | .ok _, .error _ => .isFalse (fun hh => Except.noConfusion hh)

/-- Spec-side definition, following the claim wording for C1: the first
descendant anchor element whose class token list contains `result__a`, in
document order. -/
def specFindTitleAnchor : Node → Option Node
  | .nil => none
  | .node t d a fc ns =>
    if t = NType.elementNode ∧ d = "a" ∧ hasClass (.node t d a fc ns) "result__a" = true then
      some (.node t d a fc ns)
    else
      match specFindTitleAnchor fc with
      | some m => some m
      | none => specFindTitleAnchor ns

/-- Spec-side definition, following the claim wording for C1: the first
descendant anchor element whose class token list contains `result__url`. -/
def specFindURLAnchor : Node → Option Node
  | .nil => none
  | .node t d a fc ns =>
    if t = NType.elementNode ∧ d = "a" ∧ hasClass (.node t d a fc ns) "result__url" = true then
      some (.node t d a fc ns)
    else
      match specFindURLAnchor fc with
      | some m => some m
      | none => specFindURLAnchor ns

/-- Spec-side definition, following the claim wording for C1: a result
container is ANY element whose space-separated class token list contains
the token `result` (no tag restriction), conforming when the extraction
described by the spec (first `result__a` anchor: `href` is the URL and its
descendant text the title, with the `result__url` text fallback for a
missing URL) yields a non-empty URL and title. -/
def specConforming : Node → Bool
  | .nil => false
  | .node t d a fc ns =>
    decide (t = NType.elementNode) && hasClass (.node t d a fc ns) "result" &&
    (match specFindTitleAnchor fc with
     | none => false
     | some m =>
       let u0 := (firstHref m).getD ""
       let url :=
         if u0 = "" then
           match specFindURLAnchor fc with
           | some m2 => getTextContent m2
           | none => ""
         else u0
       !(url == "") && !(getTextContent m == ""))

/-- Spec-side definition, following the claim wording for C8: the trimmed
text nodes under a sibling chain, excluding only the subtrees of
`result__a` (title) anchors. -/
def specFallbackTexts : Node → List String
  | .nil => []
  | .node t d a fc ns =>
    (if t = NType.textNode then [trimGo d] else []) ++
    (if t = NType.elementNode ∧ d = "a" ∧ hasClass (.node t d a fc ns) "result__a" = true then []
     else specFallbackTexts fc) ++
    specFallbackTexts ns

/-- No two adjacent characters are both white space. -/
def noTwoAdjacentWS : List Char → Bool
  | [] => true
  | [_] => true
  | a :: b :: rest => !(isSpaceGo a && isSpaceGo b) && noTwoAdjacentWS (b :: rest)

/-- The first character, when there is one, is not white space. -/
def headNotWS : List Char → Bool
  | [] => true
  | c :: _ => !isSpaceGo c

/-- The last character, when there is one, is not white space. -/
def lastNotWS : List Char → Bool
  | [] => true
  | [c] => !isSpaceGo c
  | _ :: c :: rest => lastNotWS (c :: rest)

/-- Example: a text node. -/
def exText (s : String) : Node :=
  .node NType.textNode s [] .nil .nil

/-- Example: a `result__a` title anchor with an `href` and a text child. -/
def exAnchorA (href txt : String) : Node :=
  .node NType.elementNode "a" [("class", "result__a"), ("href", href)] (exText txt) .nil

/-- Example: a `div.result` container holding one title anchor, with `ns`
as its next sibling. -/
def exResDiv (href txt : String) (ns : Node) : Node :=
  .node NType.elementNode "div" [("class", "result")] (exAnchorA href txt) ns

/-- Example: three conforming result containers in a row. -/
def exChain3 : Node :=
  exResDiv "http://a" "A" (exResDiv "http://b" "B" (exResDiv "http://c" "C" .nil))

/-- Example: a results page with three conforming result containers. -/
def exDoc3 : Node :=
  .node NType.documentNode "" [] exChain3 .nil

/-- Example: a `span` element whose class token list contains `result`,
holding a title anchor with non-empty URL and title. -/
def exSpanRes : Node :=
  .node NType.elementNode "span" [("class", "result")] (exAnchorA "http://x" "T") .nil

/-- Example: a results page whose only result container is a `span`. -/
def exCexDoc : Node :=
  .node NType.documentNode "" [] exSpanRes .nil

/-- Example: two `result__a` anchors in a row — the first with a good
`href` and a text child, the second with neither `href` nor text. -/
def exLastWinsKids : Node :=
  .node NType.elementNode "a" [("class", "result__a"), ("href", "http://x")] (exText "T")
    (.node NType.elementNode "a" [("class", "result__a")] .nil .nil)

/-- Example: a `div.result` container whose first `result__a` anchor
extracts perfectly but whose second, empty `result__a` anchor overwrites
the title under the code's last-match semantics. -/
def exDivLastWins : Node :=
  .node NType.elementNode "div" [("class", "result")] exLastWinsKids .nil

/-- Example: a results page whose only result container is
`exDivLastWins`. -/
def exCexDoc2 : Node :=
  .node NType.documentNode "" [] exDivLastWins .nil

/-- Example: children of a snippet-less container — the title anchor, a
plain anchor holding the longest text node, and a short bare text node. -/
def exCex8Kids : Node :=
  .node NType.elementNode "a" [("class", "result__a"), ("href", "http://x")] (exText "T")
    (.node NType.elementNode "a" [("href", "http://y")] (exText "loooooooooooooooooooog")
      (exText "short"))

/-- Example: a snippet-less `div.result` container for the fallback scan. -/
def exCex8 : Node :=
  .node NType.elementNode "div" [("class", "result")] exCex8Kids .nil

/-- Example: a bare text node of 301 characters. -/
def exLongText : Node :=
  exText (String.mk (List.replicate 301 'a'))

/-- Example: a results page with no result containers at all. -/
def exEmptyDoc : Node :=
  .node NType.documentNode "" [] .nil .nil

/-- Example content-fetch oracle: fetching `http://b` fails, everything
else succeeds. -/
def cf3 : String → Option String :=
  fun u => if u = "http://b" then none else some "fetched page text"

/-- Example envelope with five entries of which three have non-empty title
and URL. -/
def exEnv5 : SearXNGResponse :=
  ⟨[⟨"T1", "u1", "c1", "", ""⟩, ⟨"", "u2", "c2", "", ""⟩, ⟨"T3", "u3", "c3", "", ""⟩,
    ⟨"T4", "", "c4", "", ""⟩, ⟨"T5", "u5", "c5", "", ""⟩]⟩

/-- Example envelope with a single usable entry. -/
def exEnv1 : SearXNGResponse :=
  ⟨[⟨"t", "u", "c", "", ""⟩]⟩

lemma take_absorb {α : Type} (xs ys : List α) (k : Nat) :
    ((xs.take k) ++ ys).take k = (xs ++ ys).take k := by
  induction xs generalizing k with
  | nil => simp
  | cons x xs ih =>
    cases k with
    | zero => simp
    | succ k => simp [List.take_succ_cons, List.cons_append, ih]

lemma parseRun_eq (limit : Nat) :
    ∀ (n : Node) (acc : List SearchResult), acc.length ≤ limit →
      parseRun limit n acc =
        (acc ++ ((chainNodes n).filter acceptedResult).map extractResultFromNode).take limit := by
  intro n
  induction n with
  | nil =>
    intro acc h
    simp [parseRun, chainNodes, List.take_of_length_le h]
  | node t d a fc ns ihf ihn =>
    intro acc h
    by_cases h1 : acc.length < limit
    · by_cases h2 : acceptedResult (Node.node t d a fc ns) = true
      · by_cases h3 : limit ≤ acc.length + 1
        · have hlen : (acc ++ [extractResultFromNode (Node.node t d a fc ns)]).length = limit := by
            simp only [List.length_append, List.length_cons, List.length_nil]
            omega
          have hcond : (acceptedResult (Node.node t d a fc ns) &&
              decide (limit ≤ (acc ++ [extractResultFromNode (Node.node t d a fc ns)]).length)) = true := by
            rw [h2, Bool.true_and, decide_eq_true_eq, hlen]
          simp only [parseRun, chainNodes]
          rw [if_pos h1, if_pos h2, if_pos hcond]
          rw [ihn (acc ++ [extractResultFromNode (Node.node t d a fc ns)]) (le_of_eq hlen)]
          rw [List.filter_cons_of_pos h2, List.map_cons]
          rw [List.append_cons acc (extractResultFromNode (Node.node t d a fc ns))
            (List.map extractResultFromNode (List.filter acceptedResult (chainNodes fc ++ chainNodes ns)))]
          rw [List.take_append_of_le_length (le_of_eq hlen.symm)]
          rw [List.take_append_of_le_length (le_of_eq hlen.symm)]
        · have hne : ¬(limit ≤ (acc ++ [extractResultFromNode (Node.node t d a fc ns)]).length) := by
            simp only [List.length_append, List.length_cons, List.length_nil]
            omega
          have hcond : (acceptedResult (Node.node t d a fc ns) &&
              decide (limit ≤ (acc ++ [extractResultFromNode (Node.node t d a fc ns)]).length)) = false := by
            rw [decide_eq_false hne, Bool.and_false]
          simp only [parseRun, chainNodes]
          rw [if_pos h1, if_pos h2, if_neg (ne_true_of_eq_false hcond)]
          rw [ihf (acc ++ [extractResultFromNode (Node.node t d a fc ns)]) (by
            simp only [List.length_append, List.length_cons, List.length_nil]; omega)]
          rw [ihn _ (by rw [List.length_take]; exact Nat.min_le_left _ _)]
          rw [take_absorb]
          rw [List.filter_cons_of_pos h2, List.map_cons]
          congr 1
          simp [List.append_assoc]
      · have hf : acceptedResult (Node.node t d a fc ns) = false := Bool.eq_false_iff.mpr h2
        have hcond : (acceptedResult (Node.node t d a fc ns) &&
            decide (limit ≤ acc.length)) = false := by
          rw [hf, Bool.false_and]
        simp only [parseRun, chainNodes]
        rw [if_pos h1, if_neg h2, if_neg (ne_true_of_eq_false hcond)]
        rw [ihf acc h]
        rw [ihn _ (by rw [List.length_take]; exact Nat.min_le_left _ _)]
        rw [take_absorb]
        rw [List.filter_cons_of_neg (by simp [hf])]
        congr 1
        simp [List.append_assoc]
    · have hle : limit ≤ acc.length := Nat.le_of_not_lt h1
      simp only [parseRun, chainNodes]
      rw [if_neg h1]
      rw [List.take_append_of_le_length hle, List.take_of_length_le h]

lemma accepted_fields (n : Node) (h : acceptedResult n = true) :
    (extractResultFromNode n).url ≠ "" ∧ (extractResultFromNode n).title ≠ "" := by
  cases n with
  | nil => simp [acceptedResult] at h
  | node t d a fc ns =>
    simp only [acceptedResult, Bool.and_eq_true, Bool.not_eq_true', beq_eq_false_iff_ne] at h
    exact ⟨h.1.2, h.2⟩

/-- C1 (amended: the code only treats `div` elements as result containers,
and extraction follows the code's last-match semantics).  For every parsed
results page whose root is not an element (as produced by `html.Parse`) and
every limit, `parseDuckDuckGoResults` returns exactly the first
`min(N, limit)` conforming `div.result` containers' extractions in document
order, each with non-empty URL and title, where a container conforms when
it is a `div` element whose class token list contains `result` and its
extraction has non-empty URL and title. -/
theorem C1_parser_returns_min_of_conforming_divs
    (t : NType) (d : String) (a : List (String × String)) (fc ns : Node) (limit : Nat)
    (hroot : t ≠ NType.elementNode) :
    parseDuckDuckGoResults (Node.node t d a fc ns) limit =
      (((chainNodes fc).filter acceptedResult).map extractResultFromNode).take limit ∧
    (parseDuckDuckGoResults (Node.node t d a fc ns) limit).length =
      min (((chainNodes fc).filter acceptedResult).length) limit ∧
    ∀ r ∈ parseDuckDuckGoResults (Node.node t d a fc ns) limit, r.url ≠ "" ∧ r.title ≠ "" := by
  have hA : acceptedResult (Node.node t d a fc ns) = false := by
    simp [acceptedResult, decide_eq_false hroot]
  have hmain : parseDuckDuckGoResults (Node.node t d a fc ns) limit =
      (((chainNodes fc).filter acceptedResult).map extractResultFromNode).take limit := by
    simp only [parseDuckDuckGoResults]
    rw [if_neg (ne_true_of_eq_false hA)]
    rw [if_neg (ne_true_of_eq_false (by rw [hA, Bool.false_and]))]
    rw [parseRun_eq limit fc [] (by simp)]
    simp
  refine ⟨hmain, ?_, ?_⟩
  · rw [hmain, List.length_take, List.length_map]
    exact Nat.min_comm _ _
  · intro r hr
    rw [hmain] at hr
    obtain ⟨n', hn', rfl⟩ := List.mem_map.mp (List.mem_of_mem_take hr)
    exact accepted_fields n' (List.of_mem_filter hn')

/-- C1 witness: a results page with three conforming `div.result`
containers, queried with limit 2, yields exactly the first two in document
order with length `min 3 2`. -/
theorem C1_witness :
    NType.documentNode ≠ NType.elementNode ∧
    parseDuckDuckGoResults exDoc3 2 =
      [{ url := "http://a", title := "A", content := "" },
       { url := "http://b", title := "B", content := "" }] ∧
    (parseDuckDuckGoResults exDoc3 2).length = min 3 2 := by
  refine ⟨by decide, ?_, ?_⟩
  · exact ((C1_parser_returns_min_of_conforming_divs NType.documentNode "" [] exChain3
      Node.nil 2 (by decide)).1).trans (by decide)
  · exact ((C1_parser_returns_min_of_conforming_divs NType.documentNode "" [] exChain3
      Node.nil 2 (by decide)).2.1).trans (by decide)

/-- C1 counterexample, two conforming containers the parser misses.
First, a `span` element whose class token list contains `result`, with
perfectly extractable URL and title, is a conforming result container in
the claim's sense (N = 1), yet the parser returns no result — the code
additionally requires the container to be a `div`.  Second, even a
`div.result` container whose FIRST `result__a` anchor yields a non-empty
URL and title — conforming under the spec's first-anchor extraction
(`specConforming`) — is rejected by the code (`acceptedResult` is false)
and the parser again returns no result: the code's last-match semantics
lets a later, text-less `result__a` anchor overwrite the title. -/
theorem C1_counterexample :
    specConforming exSpanRes = true ∧
    ((chainNodes exSpanRes).filter specConforming).length = 1 ∧
    parseDuckDuckGoResults exCexDoc 1 = [] ∧
    (parseDuckDuckGoResults exCexDoc 1).length ≠
      min (((chainNodes exSpanRes).filter specConforming).length) 1 ∧
    specConforming exDivLastWins = true ∧
    acceptedResult exDivLastWins = false ∧
    ((chainNodes exDivLastWins).filter specConforming).length = 1 ∧
    parseDuckDuckGoResults exCexDoc2 1 = [] ∧
    (parseDuckDuckGoResults exCexDoc2 1).length ≠
      min (((chainNodes exDivLastWins).filter specConforming).length) 1 := by
  refine ⟨by decide, by decide, by decide, by decide, by decide, by decide, by decide,
    by decide, by decide⟩

lemma collectResults_eq : ∀ (es : List SearXNGResult) (acc : List SearchResult) (limit : Nat),
    acc.length ≤ limit →
    collectResults limit es acc =
      acc ++ ((es.filter usableEntry).map projEntry).take (limit - acc.length) := by
  intro es
  induction es with
  | nil =>
    intro acc limit h
    simp [collectResults]
  | cons e es ih =>
    intro acc limit h
    by_cases h1 : limit ≤ acc.length
    · have h0 : limit - acc.length = 0 := by omega
      simp only [collectResults, if_pos h1, h0, List.take_zero, List.append_nil]
    · by_cases h2 : e.title = "" ∨ e.url = ""
      · have hu : usableEntry e = false := by
          rcases h2 with h2 | h2 <;> simp [usableEntry, h2]
        simp only [collectResults, if_neg h1, if_pos h2]
        rw [ih acc limit h]
        rw [List.filter_cons_of_neg (by simp [hu])]
      · have hu : usableEntry e = true := by
          push_neg at h2
          simp [usableEntry, h2.1, h2.2]
        have hlen1 : (acc ++ [projEntry e]).length ≤ limit := by
          simp only [List.length_append, List.length_cons, List.length_nil]
          omega
        have hk2 : limit - (acc ++ [projEntry e]).length = limit - acc.length - 1 := by
          simp only [List.length_append, List.length_cons, List.length_nil]
          omega
        simp only [collectResults, if_neg h1, if_neg h2]
        rw [ih (acc ++ [projEntry e]) limit hlen1]
        rw [List.filter_cons_of_pos hu, List.map_cons, hk2]
        set k := limit - acc.length - 1 with hkd
        have hk : limit - acc.length = k + 1 := by omega
        rw [hk, List.take_succ_cons]
        simp [List.append_assoc]

/-- C2: when the first endpoint fails to decode and the second decodes to a
non-empty envelope, `SearXNGAPISearcher.Search` succeeds with the second
envelope's entries, skipping those with empty title or URL, stopping at
`limit` and preserving their relative order (the result is exactly the
`limit`-prefix of the valid entries' projections, each drawn from the
envelope). -/
theorem C2_api_fallback_collects_limited (env : SearXNGResponse) (limit : Nat)
    (henv : env.results ≠ []) :
    SearXNGSearch [none, some env] limit =
      .ok (((env.results.filter usableEntry).map projEntry).take limit) ∧
    (((env.results.filter usableEntry).map projEntry).take limit).length =
      min ((env.results.filter usableEntry).length) limit ∧
    ∀ r ∈ ((env.results.filter usableEntry).map projEntry).take limit,
      ∃ e, e ∈ env.results ∧ usableEntry e = true ∧ r = projEntry e := by
  have hlen0 : ¬(env.results.length = 0) := by
    simpa [List.length_eq_zero] using henv
  refine ⟨?_, ?_, ?_⟩
  · simp only [SearXNGSearch]
    have hfd : firstDecoded [none, some env] = env := rfl
    rw [hfd, if_neg hlen0]
    have hc := collectResults_eq env.results [] limit (by simp)
    simp only [List.length_nil, Nat.sub_zero, List.nil_append] at hc
    rw [hc]
  · rw [List.length_take, List.length_map]
    exact Nat.min_comm _ _
  · intro r hr
    obtain ⟨e, he, rfl⟩ := List.mem_map.mp (List.mem_of_mem_take hr)
    exact ⟨e, (List.mem_filter.mp he).1, (List.mem_filter.mp he).2, rfl⟩

/-- C2 witness: an invalid first endpoint, a valid second envelope with 5
entries of which 3 are usable, and limit 2 give exactly the first two
usable entries in their original order. -/
theorem C2_witness :
    exEnv5.results ≠ [] ∧
    SearXNGSearch [none, some exEnv5] 2 =
      .ok [{ url := "u1", title := "T1", content := "c1" },
           { url := "u3", title := "T3", content := "c3" }] := by
  refine ⟨by decide, ?_⟩
  exact ((C2_api_fallback_collects_limited exEnv5 2 (by decide)).1).trans (by decide)

/-- C3 (amended: only the scraping searcher maps a zero-match backend to an
empty success; the API searcher treats a decoded envelope with an empty
result list — in particular a backend that legitimately has zero matches —
as its hard failure).  The scraping searcher returns `ok []` whenever the
page parses to zero results, while the API searcher returns the
`no valid JSON response from any endpoint` error whenever the decoded
envelope is empty. -/
theorem C3_zero_matches :
    (∀ (doc : Node) (cf : String → Option String) (limit : Nat),
      parseDuckDuckGoResults doc limit = [] →
      WebScraperSearch (Except.ok doc) cf limit = .ok []) ∧
    (∀ (responses : List (Option SearXNGResponse)) (limit : Nat),
      (firstDecoded responses).results = [] →
      SearXNGSearch responses limit = .error "no valid JSON response from any endpoint") := by
  constructor
  · intro doc cf limit hp
    simp [WebScraperSearch, searchDuckDuckGo, hp]
  · intro responses limit hr
    simp [SearXNGSearch, hr]

/-- C3 counterexample: an endpoint that decodes perfectly well to an
envelope with zero results (a backend that legitimately has zero matches)
makes `SearXNGAPISearcher.Search` fail instead of returning the empty
sequence. -/
theorem C3_counterexample :
    SearXNGSearch [some ⟨[]⟩, none] 3 = .error "no valid JSON response from any endpoint" ∧
    SearXNGSearch [some ⟨[]⟩, none] 3 ≠ .ok [] := by
  refine ⟨by decide, by decide⟩

/-- C3 witness: a page with no result containers yields `ok []` from the
scraper, and an API run with no decodable endpoint yields the hard
failure. -/
theorem C3_witness :
    parseDuckDuckGoResults exEmptyDoc 4 = [] ∧
    WebScraperSearch (Except.ok exEmptyDoc) cf3 4 = .ok [] ∧
    (firstDecoded [none, none]).results = [] ∧
    SearXNGSearch [none, none] 4 = .error "no valid JSON response from any endpoint" :=
  ⟨by decide, C3_zero_matches.1 exEmptyDoc cf3 4 (by decide), by decide,
    C3_zero_matches.2 [none, none] 4 (by decide)⟩

/-- C4 (amended: the hard-failure message is the literal
`no valid JSON response from any endpoint`).  The API search fails exactly
when the first decoded envelope (the zero envelope when nothing decodes)
has an empty result list, any failure is that single message, a successful
decode stops the candidate loop, and a failed candidate passes control to
the next one. -/
theorem C4_hard_failure_iff_empty_decode (responses : List (Option SearXNGResponse))
    (limit : Nat) :
    (SearXNGSearch responses limit = .error "no valid JSON response from any endpoint" ↔
      (firstDecoded responses).results = []) ∧
    (∀ e, SearXNGSearch responses limit = .error e →
      e = "no valid JSON response from any endpoint") ∧
    (∀ (env : SearXNGResponse) (rest : List (Option SearXNGResponse)),
      firstDecoded (some env :: rest) = env) ∧
    (∀ rest : List (Option SearXNGResponse), firstDecoded (none :: rest) = firstDecoded rest) := by
  refine ⟨⟨?_, ?_⟩, ?_, fun env rest => rfl, fun rest => rfl⟩
  · intro hE
    by_contra hne
    have h0 : ¬((firstDecoded responses).results.length = 0) := by
      simpa [List.length_eq_zero] using hne
    simp [SearXNGSearch, h0] at hE
  · intro hr
    simp [SearXNGSearch, hr]
  · intro e hE
    by_cases h0 : (firstDecoded responses).results.length = 0
    · simp [SearXNGSearch, h0] at hE
      exact hE.symm
    · simp [SearXNGSearch, h0] at hE

/-- C4 counterexample: the error the code produces is
`no valid JSON response from any endpoint`, not the claim's
`no valid response from any endpoint`. -/
theorem C4_counterexample :
    SearXNGSearch [none, none] 5 = .error "no valid JSON response from any endpoint" ∧
    "no valid JSON response from any endpoint" ≠ "no valid response from any endpoint" := by
  refine ⟨by decide, by decide⟩

/-- C4 witness: with both endpoints undecodable the search fails with the
exact hard-failure message. -/
theorem C4_witness :
    (firstDecoded [none, none]).results = [] ∧
    SearXNGSearch [none, none] 1 = .error "no valid JSON response from any endpoint" :=
  ⟨by decide, (C4_hard_failure_iff_empty_decode [none, none] 1).1.mpr (by decide)⟩

lemma okList_map_getD (l : List SearchResult) (cf : String → Option String) (i : Nat) :
    (l.map (enrich cf)).getD i default =
      if i < l.length then enrich cf (l.getD i default) else default := by
  induction l generalizing i with
  | nil => simp
  | cons x l ih =>
    cases i with
    | zero => simp
    | succ i =>
      simp only [List.map_cons, List.getD_cons_succ, List.length_cons, ih]
      by_cases hi : i < l.length
      · rw [if_pos hi, if_pos (by omega)]
      · rw [if_neg hi, if_neg (by omega)]

/-- C5: a failing content fetch for any individual parsed result never
fails the whole scraping search and never drops a result: the search still
succeeds, the output has one entry per parsed result, an entry whose fetch
failed is returned exactly as parsed (its original snippet kept), and an
entry whose fetch succeeded differs only in its content. -/
theorem C5_enrichment_best_effort (doc : Node) (cf : String → Option String) (limit : Nat) :
    (∃ l, searchDuckDuckGo (Except.ok doc) cf limit = .ok l) ∧
    (okList (searchDuckDuckGo (Except.ok doc) cf limit)).length =
      (parseDuckDuckGoResults doc limit).length ∧
    (∀ i : Nat, cf (((parseDuckDuckGoResults doc limit).getD i default).url) = none →
      (okList (searchDuckDuckGo (Except.ok doc) cf limit)).getD i default =
        (parseDuckDuckGoResults doc limit).getD i default) ∧
    (∀ i : Nat, i < (parseDuckDuckGoResults doc limit).length → ∀ c,
      cf (((parseDuckDuckGoResults doc limit).getD i default).url) = some c →
      (okList (searchDuckDuckGo (Except.ok doc) cf limit)).getD i default =
        { (parseDuckDuckGoResults doc limit).getD i default with content := c }) := by
  have hok : searchDuckDuckGo (Except.ok doc) cf limit =
      .ok ((parseDuckDuckGoResults doc limit).map (enrich cf)) := rfl
  refine ⟨⟨_, hok⟩, ?_, ?_, ?_⟩
  · rw [hok]
    simp [okList]
  · intro i hcf
    rw [hok]
    simp only [okList, okList_map_getD]
    by_cases hi : i < (parseDuckDuckGoResults doc limit).length
    · rw [if_pos hi, enrich, hcf]
    · rw [if_neg hi]
      rw [List.getD_eq_default]
      omega
  · intro i hi c hcf
    rw [hok]
    simp only [okList, okList_map_getD]
    rw [if_pos hi, enrich, hcf]

/-- C5 witness: a page with three parsed results whose second content fetch
fails still yields three entries, the second exactly as parsed. -/
theorem C5_witness :
    cf3 (((parseDuckDuckGoResults exDoc3 3).getD 1 default).url) = none ∧
    (okList (searchDuckDuckGo (Except.ok exDoc3) cf3 3)).length = 3 ∧
    (okList (searchDuckDuckGo (Except.ok exDoc3) cf3 3)).getD 1 default =
      (parseDuckDuckGoResults exDoc3 3).getD 1 default ∧
    (okList (searchDuckDuckGo (Except.ok exDoc3) cf3 3)).getD 0 default =
      { (parseDuckDuckGoResults exDoc3 3).getD 0 default with content := "fetched page text" } := by
  refine ⟨by decide, ?_, ?_, ?_⟩
  · exact ((C5_enrichment_best_effort exDoc3 cf3 3).2.1).trans (by decide)
  · exact (C5_enrichment_best_effort exDoc3 cf3 3).2.2.1 1 (by decide)
  · exact (C5_enrichment_best_effort exDoc3 cf3 3).2.2.2 0 (by decide) "fetched page text" (by decide)

/-- C6: the snippet content of every extracted result is the trimmed chosen
content verbatim when that is at most 300 characters, and its first 300
characters followed by the 3-character `...` marker when longer; in either
case the final content never exceeds 303 characters. -/
theorem C6_snippet_truncation (n : Node) :
    (300 < (trimGo (rawSnippet n)).length →
      (extractResultFromNode n).content =
        String.mk ((trimGo (rawSnippet n)).data.take 300) ++ "...") ∧
    ((trimGo (rawSnippet n)).length ≤ 300 →
      (extractResultFromNode n).content = trimGo (rawSnippet n)) ∧
    (extractResultFromNode n).content.length ≤ 303 := by
  have hc : (extractResultFromNode n).content = cleanContent (rawSnippet n) := rfl
  refine ⟨?_, ?_, ?_⟩
  · intro h
    rw [hc]
    simp only [cleanContent]
    rw [if_pos h]
  · intro h
    rw [hc]
    simp only [cleanContent]
    rw [if_neg (by omega)]
  · rw [hc]
    simp only [cleanContent]
    by_cases h : 300 < (trimGo (rawSnippet n)).length
    · rw [if_pos h]
      rw [String.length_append]
      have h1 : (String.mk ((trimGo (rawSnippet n)).data.take 300)).length =
          min 300 (trimGo (rawSnippet n)).data.length := List.length_take _ _
      have h2 : ("..." : String).length = 3 := rfl
      omega
    · rw [if_neg h]
      omega

set_option maxRecDepth 40000 in
/-- C6 witness: a 301-character text node is truncated to its first 300
characters plus the ellipsis marker. -/
theorem C6_witness :
    300 < (trimGo (rawSnippet exLongText)).length ∧
    (extractResultFromNode exLongText).content =
      String.mk ((trimGo (rawSnippet exLongText)).data.take 300) ++ "..." :=
  ⟨by decide, (C6_snippet_truncation exLongText).1 (by decide)⟩

lemma splitByPred_no_sep (p : Char → Bool) :
    ∀ (l : List Char) (w : List Char), w ∈ splitByPred p l → ∀ c ∈ w, p c = false := by
  intro l
  induction l with
  | nil =>
    intro w hw c hc
    simp only [splitByPred, List.mem_singleton] at hw
    subst hw
    simp at hc
  | cons x xs ih =>
    intro w hw c hc
    simp only [splitByPred] at hw
    by_cases hx : p x = true
    · rw [if_pos hx] at hw
      rcases List.mem_cons.mp hw with rfl | hw
      · simp at hc
      · exact ih w hw c hc
    · rw [if_neg hx] at hw
      have hxf : p x = false := Bool.eq_false_iff.mpr hx
      cases hr : splitByPred p xs with
      | nil =>
        rw [hr] at hw
        simp only [List.mem_singleton] at hw
        subst hw
        simp only [List.mem_singleton] at hc
        subst hc
        exact hxf
      | cons w0 ws =>
        rw [hr] at hw
        rcases List.mem_cons.mp hw with rfl | hw
        · rcases List.mem_cons.mp hc with rfl | hc
          · exact hxf
          · exact ih w0 (by rw [hr]; exact List.mem_cons_self _ _) c hc
        · exact ih w (by rw [hr]; exact List.mem_cons_of_mem _ hw) c hc

lemma fieldsChars_words (l : List Char) (w : List Char) (hw : w ∈ fieldsChars l) :
    w ≠ [] ∧ ∀ c ∈ w, isSpaceGo c = false := by
  have h1 := List.mem_filter.mp hw
  refine ⟨?_, splitByPred_no_sep isSpaceGo l w h1.1⟩
  have h2 := h1.2
  simp only [Bool.not_eq_true'] at h2
  intro hnil
  rw [hnil] at h2
  simp at h2

lemma allNotWS_noTwo : ∀ (l : List Char), (∀ c ∈ l, isSpaceGo c = false) →
    noTwoAdjacentWS l = true := by
  intro l
  induction l with
  | nil => intro _; rfl
  | cons a rest ih =>
    intro h
    cases rest with
    | nil => rfl
    | cons b t =>
      simp only [noTwoAdjacentWS, Bool.and_eq_true]
      refine ⟨?_, ih (fun c hc => h c (List.mem_cons_of_mem _ hc))⟩
      have ha := h a (List.mem_cons_self _ _)
      simp [ha]

lemma headNotWS_of_all (l : List Char) (h : ∀ c ∈ l, isSpaceGo c = false) :
    headNotWS l = true := by
  cases l with
  | nil => rfl
  | cons a rest =>
    have := h a (List.mem_cons_self _ _)
    simp [headNotWS, this]

lemma lastNotWS_of_all : ∀ (l : List Char), (∀ c ∈ l, isSpaceGo c = false) →
    lastNotWS l = true := by
  intro l
  induction l with
  | nil => intro _; rfl
  | cons a rest ih =>
    intro h
    cases rest with
    | nil =>
      have := h a (List.mem_cons_self _ _)
      simp [lastNotWS, this]
    | cons b t =>
      show lastNotWS (b :: t) = true
      exact ih (fun c hc => h c (List.mem_cons_of_mem _ hc))

lemma noTwo_cons_of_head (x : Char) (l : List Char) (hl : noTwoAdjacentWS l = true)
    (hh : headNotWS l = true) : noTwoAdjacentWS (x :: l) = true := by
  cases l with
  | nil => rfl
  | cons y t =>
    simp only [noTwoAdjacentWS, Bool.and_eq_true]
    refine ⟨?_, hl⟩
    simp only [headNotWS, Bool.not_eq_true'] at hh
    simp [hh]

lemma noTwo_append (ys : List Char) (hy : noTwoAdjacentWS ys = true) :
    ∀ (xs : List Char), noTwoAdjacentWS xs = true →
    (lastNotWS xs = true ∨ headNotWS ys = true) →
    noTwoAdjacentWS (xs ++ ys) = true := by
  intro xs
  induction xs with
  | nil =>
    intro _ _
    simpa using hy
  | cons x xs ih =>
    intro hx hb
    cases xs with
    | nil =>
      simp only [List.cons_append, List.nil_append]
      cases ys with
      | nil => rfl
      | cons y t =>
        simp only [noTwoAdjacentWS, Bool.and_eq_true]
        refine ⟨?_, hy⟩
        rcases hb with hb | hb
        · simp only [lastNotWS, Bool.not_eq_true'] at hb
          simp [hb]
        · simp only [headNotWS, Bool.not_eq_true'] at hb
          simp [hb]
    | cons x2 xs2 =>
      simp only [List.cons_append]
      simp only [noTwoAdjacentWS, Bool.and_eq_true] at hx
      have htail : noTwoAdjacentWS ((x2 :: xs2) ++ ys) = true := by
        apply ih hx.2
        rcases hb with hb | hb
        · left
          show lastNotWS (x2 :: xs2) = true
          exact hb
        · right
          exact hb
      show (!(isSpaceGo x && isSpaceGo x2) && noTwoAdjacentWS (x2 :: (xs2 ++ ys))) = true
      simp only [Bool.and_eq_true]
      exact ⟨hx.1, htail⟩

lemma lastNotWS_append (xs ys : List Char) (hys : ys ≠ []) :
    lastNotWS (xs ++ ys) = lastNotWS ys := by
  induction xs with
  | nil => simp
  | cons x xs ih =>
    have hne : xs ++ ys ≠ [] := fun hh => hys (List.append_eq_nil.mp hh).2
    cases hxs : xs ++ ys with
    | nil => exact absurd hxs hne
    | cons c rest =>
      calc lastNotWS ((x :: xs) ++ ys) = lastNotWS (x :: c :: rest) := by
            rw [List.cons_append, hxs]
        _ = lastNotWS (c :: rest) := by simp only [lastNotWS]
        _ = lastNotWS (xs ++ ys) := by rw [hxs]
        _ = lastNotWS ys := ih

lemma joinWords_ne_nil (ws : List (List Char)) (h1 : ws ≠ []) (h2 : ∀ w ∈ ws, w ≠ []) :
    joinWords ws ≠ [] := by
  cases ws with
  | nil => exact absurd rfl h1
  | cons w ws' =>
    cases ws' with
    | nil =>
      simpa [joinWords] using h2 w (List.mem_cons_self _ _)
    | cons w2 ws'' =>
      simp only [joinWords]
      intro hcontra
      have := (List.append_eq_nil.mp hcontra).2
      simp at this

lemma joinWords_props : ∀ (ws : List (List Char)),
    (∀ w ∈ ws, w ≠ [] ∧ ∀ c ∈ w, isSpaceGo c = false) →
    noTwoAdjacentWS (joinWords ws) = true ∧ headNotWS (joinWords ws) = true ∧
      lastNotWS (joinWords ws) = true := by
  intro ws
  induction ws with
  | nil => intro _; exact ⟨rfl, rfl, rfl⟩
  | cons w ws ih =>
    intro h
    have hw := h w (List.mem_cons_self _ _)
    cases ws with
    | nil =>
      simp only [joinWords]
      exact ⟨allNotWS_noTwo w hw.2, headNotWS_of_all w hw.2, lastNotWS_of_all w hw.2⟩
    | cons w2 ws2 =>
      have hrest : ∀ w' ∈ w2 :: ws2, w' ≠ [] ∧ ∀ c ∈ w', isSpaceGo c = false :=
        fun w' hw' => h w' (List.mem_cons_of_mem _ hw')
      obtain ⟨hJn, hJh, hJl⟩ := ih hrest
      have hJne : joinWords (w2 :: ws2) ≠ [] :=
        joinWords_ne_nil _ (by simp) (fun w' hw' => (hrest w' hw').1)
      simp only [joinWords]
      refine ⟨?_, ?_, ?_⟩
      · exact noTwo_append (' ' :: joinWords (w2 :: ws2))
          (noTwo_cons_of_head ' ' _ hJn hJh) w (allNotWS_noTwo w hw.2)
          (Or.inl (lastNotWS_of_all w hw.2))
      · cases hwc : w with
        | nil => exact absurd hwc hw.1
        | cons c w' =>
          have hc := hw.2 c (by rw [hwc]; exact List.mem_cons_self _ _)
          simp [headNotWS, hc]
      · rw [lastNotWS_append w _ (by simp)]
        cases hJc : joinWords (w2 :: ws2) with
        | nil => exact absurd hJc hJne
        | cons c t =>
          show lastNotWS (c :: t) = true
          rw [← hJc]
          exact hJl

lemma noTwo_take : ∀ (l : List Char) (n : Nat), noTwoAdjacentWS l = true →
    noTwoAdjacentWS (l.take n) = true := by
  intro l
  induction l with
  | nil => intro n _; simp [List.take_nil]; rfl
  | cons a rest ih =>
    intro n h
    cases n with
    | zero => rfl
    | succ n =>
      rw [List.take_succ_cons]
      cases rest with
      | nil => simp only [List.take_nil]; rfl
      | cons b t =>
        cases n with
        | zero => rfl
        | succ n =>
          rw [List.take_succ_cons]
          simp only [noTwoAdjacentWS, Bool.and_eq_true] at h
          have htail := ih (n + 1) h.2
          rw [List.take_succ_cons] at htail
          show (!(isSpaceGo a && isSpaceGo b) && noTwoAdjacentWS (b :: t.take n)) = true
          simp only [Bool.and_eq_true]
          exact ⟨h.1, htail⟩

lemma headNotWS_take (l : List Char) (n : Nat) (h : headNotWS l = true) :
    headNotWS (l.take n) = true := by
  cases l with
  | nil => simpa using h
  | cons a rest =>
    cases n with
    | zero => rfl
    | succ n =>
      rw [List.take_succ_cons]
      simpa [headNotWS] using h

/-- C7: the Content Extractor's output is at most 2000 characters, is a
plain prefix of the collapsed text (no ellipsis marker), contains no run of
two adjacent whitespace characters, and does not start with white space;
the collapsed text before the hard truncation likewise has no whitespace
run and is trimmed at both ends. -/
theorem C7_extractor_bounds (doc : Node) :
    (extractContentFromURLBody doc).length ≤ 2000 ∧
    noTwoAdjacentWS (extractContentFromURLBody doc).data = true ∧
    headNotWS (extractContentFromURLBody doc).data = true ∧
    (extractContentFromURLBody doc).data <+: (extractTextFromHTML doc).data ∧
    noTwoAdjacentWS (extractTextFromHTML doc).data = true ∧
    headNotWS (extractTextFromHTML doc).data = true ∧
    lastNotWS (extractTextFromHTML doc).data = true := by
  have hwords : ∀ w ∈ fieldsChars (extractTop doc).data,
      w ≠ [] ∧ ∀ c ∈ w, isSpaceGo c = false :=
    fun w hw => fieldsChars_words _ w hw
  obtain ⟨hn0, hh0, hl0⟩ := joinWords_props _ hwords
  have hn : noTwoAdjacentWS (extractTextFromHTML doc).data = true := hn0
  have hh : headNotWS (extractTextFromHTML doc).data = true := hh0
  have hl : lastNotWS (extractTextFromHTML doc).data = true := hl0
  by_cases hlen : 2000 < (extractTextFromHTML doc).length
  · have hbody : extractContentFromURLBody doc =
        String.mk ((extractTextFromHTML doc).data.take 2000) := by
      simp only [extractContentFromURLBody]
      rw [if_pos hlen]
    refine ⟨?_, ?_, ?_, ?_, hn, hh, hl⟩
    · rw [hbody]
      show ((extractTextFromHTML doc).data.take 2000).length ≤ 2000
      rw [List.length_take]
      exact Nat.min_le_left _ _
    · rw [hbody]
      exact noTwo_take _ 2000 hn
    · rw [hbody]
      exact headNotWS_take _ 2000 hh
    · rw [hbody]
      exact List.take_prefix _ _
  · have hbody : extractContentFromURLBody doc = extractTextFromHTML doc := by
      simp only [extractContentFromURLBody]
      rw [if_neg hlen]
    refine ⟨?_, ?_, ?_, ?_, hn, hh, hl⟩
    · rw [hbody]; omega
    · rw [hbody]; exact hn
    · rw [hbody]; exact hh
    · rw [hbody]

lemma stepDesc_fold (t : NType) (d : String) (cur : String) :
    (if t = NType.textNode then [trimGo d] else []).foldl pickLonger cur = stepDesc t d cur := by
  by_cases ht : t = NType.textNode
  · rw [if_pos ht]
    simp [stepDesc, pickLonger, ht]
  · rw [if_neg ht]
    simp [stepDesc, ht]

lemma descRun_fold : ∀ (n : Node) (cur : String),
    descRun n cur = (descTexts n).foldl pickLonger cur := by
  intro n
  induction n with
  | nil => intro cur; rfl
  | node t d a fc ns ihf ihn =>
    intro cur
    simp only [descRun, descTexts]
    rw [List.foldl_append, List.foldl_append, ihn]
    congr 1
    rw [stepDesc_fold]
    by_cases hd : d ≠ "a"
    · rw [if_pos hd, if_pos hd, ihf]
    · rw [if_neg hd, if_neg hd]
      rfl

lemma descTop_fold (n : Node) (cur : String) :
    descTop n cur = (descTextsTop n).foldl pickLonger cur := by
  cases n with
  | nil => rfl
  | node t d a fc ns =>
    simp only [descTop, descTextsTop]
    rw [List.foldl_append, stepDesc_fold]
    by_cases hd : d ≠ "a"
    · rw [if_pos hd, if_pos hd]
      exact descRun_fold fc _
    · rw [if_neg hd, if_neg hd]
      rfl

lemma foldl_pick_spec : ∀ (ts : List String) (cur : String),
    cur.length ≤ (ts.foldl pickLonger cur).length ∧
    (∀ t ∈ ts, t.length ≤ (ts.foldl pickLonger cur).length) ∧
    (ts.foldl pickLonger cur = cur ∨
      ∃ pre suf, ts = pre ++ (ts.foldl pickLonger cur) :: suf ∧
        cur.length < (ts.foldl pickLonger cur).length ∧
        ∀ t ∈ pre, t.length < (ts.foldl pickLonger cur).length) := by
  intro ts
  induction ts with
  | nil =>
    intro cur
    exact ⟨le_refl _, by simp, Or.inl rfl⟩
  | cons t ts ih =>
    intro cur
    simp only [List.foldl_cons]
    by_cases h : cur.length < t.length
    · have hp : pickLonger cur t = t := by simp [pickLonger, h]
      rw [hp]
      obtain ⟨ih1, ih2, ih3⟩ := ih t
      refine ⟨le_trans (le_of_lt h) ih1, ?_, ?_⟩
      · intro t' ht'
        rcases List.mem_cons.mp ht' with rfl | ht'
        · exact ih1
        · exact ih2 t' ht'
      · rcases ih3 with heq | ⟨pre, suf, hts, hlt, hpre⟩
        · right
          refine ⟨[], ts, ?_, ?_, by simp⟩
          · rw [heq]
            simp
          · rw [heq]
            exact h
        · right
          refine ⟨t :: pre, suf, ?_, lt_trans h hlt, ?_⟩
          · rw [List.cons_append, ← hts]
          · intro t' ht'
            rcases List.mem_cons.mp ht' with rfl | ht'
            · exact hlt
            · exact hpre t' ht'
    · have hp : pickLonger cur t = cur := by simp [pickLonger, h]
      rw [hp]
      obtain ⟨ih1, ih2, ih3⟩ := ih cur
      refine ⟨ih1, ?_, ?_⟩
      · intro t' ht'
        rcases List.mem_cons.mp ht' with rfl | ht'
        · exact le_trans (Nat.le_of_not_lt h) ih1
        · exact ih2 t' ht'
      · rcases ih3 with heq | ⟨pre, suf, hts, hlt, hpre⟩
        · left
          exact heq
        · right
          refine ⟨t :: pre, suf, ?_, hlt, ?_⟩
          · rw [List.cons_append, ← hts]
          · intro t' ht'
            rcases List.mem_cons.mp ht' with rfl | ht'
            · exact lt_of_le_of_lt (Nat.le_of_not_lt h) hlt
            · exact hpre t' ht'

/-- C8 (amended: the fallback excludes the subtree of EVERY anchor element,
not only the title anchor's).  When the `find` phase produced no snippet,
the extracted content is the clean-up of the first-longest trimmed text
node among exactly those text nodes visited by `extractDesc` (children of
every node whose data is `a` are skipped): no visited text is longer, and
the chosen text is the first of maximal length in visit order. -/
theorem C8_fallback_longest_text (n : Node)
    (h : (findTop n ⟨"", "", ""⟩).content = "") :
    (extractResultFromNode n).content = cleanContent (selectFirstLongest (descTextsTop n)) ∧
    (∀ t ∈ descTextsTop n, t.length ≤ (selectFirstLongest (descTextsTop n)).length) ∧
    (selectFirstLongest (descTextsTop n) = "" ∨
      ∃ pre suf, descTextsTop n = pre ++ (selectFirstLongest (descTextsTop n)) :: suf ∧
        ∀ t ∈ pre, t.length < (selectFirstLongest (descTextsTop n)).length) := by
  have hsel : selectFirstLongest (descTextsTop n) = (descTextsTop n).foldl pickLonger "" := rfl
  have hraw : rawSnippet n = selectFirstLongest (descTextsTop n) := by
    simp only [rawSnippet]
    rw [if_pos h, descTop_fold, hsel]
  obtain ⟨_, h2, h3⟩ := foldl_pick_spec (descTextsTop n) ""
  refine ⟨?_, ?_, ?_⟩
  · have hc : (extractResultFromNode n).content = cleanContent (rawSnippet n) := rfl
    rw [hc, hraw]
  · intro t ht
    rw [hsel]
    exact h2 t ht
  · rcases h3 with heq | ⟨pre, suf, hts, _, hpre⟩
    · left
      rw [hsel]
      exact heq
    · right
      refine ⟨pre, suf, ?_, ?_⟩
      · rw [hsel]
        exact hts
      · intro t ht
        rw [hsel]
        exact hpre t ht

/-- C8 witness: on the example container with an empty `find`-phase snippet
the extracted content is exactly the clean-up of the first-longest visited
text. -/
theorem C8_witness :
    (findTop exCex8 ⟨"", "", ""⟩).content = "" ∧
    (extractResultFromNode exCex8).content =
      cleanContent (selectFirstLongest (descTextsTop exCex8)) :=
  ⟨by decide, (C8_fallback_longest_text exCex8 (by decide)).1⟩

/-- C8 counterexample: in a snippet-less container holding a non-title
anchor with a long text, the claim's scan (excluding only the title
anchor's subtree) selects the long text, but the code returns `short` — the
code also skips the plain anchor's subtree. -/
theorem C8_counterexample :
    (findTop exCex8 ⟨"", "", ""⟩).content = "" ∧
    selectFirstLongest (specFallbackTexts exCex8Kids) = "loooooooooooooooooooog" ∧
    (extractResultFromNode exCex8).content = "short" ∧
    ("short" : String) ≠ "loooooooooooooooooooog" := by
  refine ⟨by decide, by decide, by decide, by decide⟩

/-- C9 (amended: the variant of the factory at `searcher/interface.go:75-91`
fails with the configuration error `unknown searcher type: <kind>` on every
unrecognized kind and never yields a null searcher, and recognized kinds
with an empty endpoint override receive the kind-specific default URL; the
sibling variant at `searcher/interface.go:29-45` instead returns a null
searcher for an unrecognized kind). -/
theorem C9_factory_unknown_kind (t url : String) :
    ((t ≠ "SearcherTypeScraper" ∧ t ≠ "SearcherTypeAPI") →
      NewSearchServiceErr t url = .error ("unknown searcher type: " ++ t)) ∧
    ((t = "SearcherTypeScraper" ∨ t = "SearcherTypeAPI") →
      ∃ s, NewSearchServiceErr t url = .ok s) ∧
    NewSearchServiceErr "SearcherTypeScraper" "" =
      .ok (NewWebScraper "https://html.duckduckgo.com/html/?q=") ∧
    NewSearchServiceErr "SearcherTypeAPI" "" =
      .ok (NewSearXNGAPISearcher "https://searx.grailfinder.net/") := by
  refine ⟨?_, ?_, by decide, by decide⟩
  · intro hne
    simp only [NewSearchServiceErr]
    rw [if_neg hne.1, if_neg hne.2]
  · intro h
    rcases h with rfl | rfl
    · refine ⟨NewWebScraper (if url = "" then "https://html.duckduckgo.com/html/?q=" else url), ?_⟩
      simp [NewSearchServiceErr]
    · refine ⟨NewSearXNGAPISearcher
        (if url = "" then "https://searx.grailfinder.net/" else url), ?_⟩
      simp [NewSearchServiceErr]

/-- C9 counterexample: the factory variant at `searcher/interface.go:29-45`
returns a null searcher (`none`) for an unrecognized kind — no
configuration error is surfaced on that path. -/
theorem C9_counterexample :
    NewSearchServiceNil "SomethingElse" "" = none := by
  decide

/-- C9 witness: an unrecognized kind makes the error-returning factory fail
with the configuration error. -/
theorem C9_witness :
    ("SomethingOdd" ≠ "SearcherTypeScraper" ∧ "SomethingOdd" ≠ "SearcherTypeAPI") ∧
    NewSearchServiceErr "SomethingOdd" "" = .error ("unknown searcher type: " ++ "SomethingOdd") :=
  ⟨⟨by decide, by decide⟩,
    (C9_factory_unknown_kind "SomethingOdd" "").1 ⟨by decide, by decide⟩⟩

/-- C10: with a negative limit, `WebScraper.Search` panics at the initial
`make([]SearchResult, 0, limit)` before anything else, and
`SearXNGAPISearcher.Search` panics at its result-slice allocation exactly
when an endpoint decoded a non-empty envelope (otherwise its hard-failure
error fires first); with a non-negative limit neither search can panic. -/
theorem C10_negative_limit_behavior (page : Except String Node) (cf : String → Option String)
    (responses : List (Option SearXNGResponse)) (limit : Int) :
    (limit < 0 → WebScraperSearchGo page cf limit = .panics) ∧
    (limit < 0 → (firstDecoded responses).results ≠ [] →
      SearXNGSearchGo responses limit = .panics) ∧
    (limit < 0 → (firstDecoded responses).results = [] →
      SearXNGSearchGo responses limit = .err "no valid JSON response from any endpoint") ∧
    (0 ≤ limit → WebScraperSearchGo page cf limit ≠ .panics ∧
      SearXNGSearchGo responses limit ≠ .panics) := by
  refine ⟨?_, ?_, ?_, ?_⟩
  · intro h
    simp [WebScraperSearchGo, h]
  · intro h hne
    have h0 : ¬((firstDecoded responses).results.length = 0) := by
      simpa [List.length_eq_zero] using hne
    simp only [SearXNGSearchGo]
    rw [if_neg h0, if_pos h]
  · intro _ h0
    simp only [SearXNGSearchGo]
    rw [if_pos (by simp [h0])]
  · intro h
    constructor
    · simp only [WebScraperSearchGo]
      rw [if_neg (by omega)]
      cases hW : WebScraperSearch page cf limit.toNat <;> simp
    · simp only [SearXNGSearchGo]
      by_cases h0 : (firstDecoded responses).results.length = 0
      · rw [if_pos h0]
        simp
      · rw [if_neg h0, if_neg (by omega)]
        simp

/-- C10 witness: limit `-1` panics the scraper search immediately and the
API search once a non-empty envelope decoded, while limit `2` cannot
panic. -/
theorem C10_witness :
    ((-1 : Int) < 0 ∧ WebScraperSearchGo (Except.ok Node.nil) cf3 (-1) = .panics) ∧
    ((firstDecoded [some exEnv1]).results ≠ [] ∧
      SearXNGSearchGo [some exEnv1] (-1) = .panics) ∧
    ((0 : Int) ≤ 2 ∧ WebScraperSearchGo (Except.ok Node.nil) cf3 2 ≠ .panics) :=
  ⟨⟨by decide,
      (C10_negative_limit_behavior (Except.ok Node.nil) cf3 [some exEnv1] (-1)).1 (by decide)⟩,
    ⟨by decide,
      (C10_negative_limit_behavior (Except.ok Node.nil) cf3 [some exEnv1] (-1)).2.1 (by decide)
        (by decide)⟩,
    ⟨by decide,
      ((C10_negative_limit_behavior (Except.ok Node.nil) cf3 [some exEnv1] 2).2.2.2
        (by decide)).1⟩⟩
